import Mathlib

/-!
Shallow embedding of `src/difference.py` (class `DifferencePlot`), the
interactive windowed EEG difference viewer.

Numeric matrices (numpy 2-d arrays of shape (C, T)) are embedded as
`List (List ℚ)`: a list of C rows, each a list of T rational samples.
Python integers are `ℤ` (Python's `%` on a positive divisor agrees with
`Int.emod`); machine sizes and counts are `ℕ`.  The matplotlib figure is
embedded as the list of subplots last drawn; `plt` calls that only touch
the figure are reflected in that component of the state.
-/

namespace DifferencePlot

/-- A numpy 2-d array of rationals: a list of rows. -/
abbrev Mat : Type := List (List ℚ)

/-- `dataset.shape` for a 2-d array: (row count, column count of the first row).
For genuine numpy arrays all rows have equal length, so `.2` is the column count. -/
def shape (m : Mat) : ℕ × ℕ :=
  (m.length, m.headI.length)

/-- Uniformity of a 2-d array: every row has the column count reported by `shape`. -/
def Uniform (m : Mat) : Prop :=
  ∀ row ∈ m, row.length = (shape m).2

/-- The single construction-time error of the viewer
(`raise Exception("Dataset shapes must be identical")`). -/
inductive DPError where
  | ShapeMismatch
  deriving DecidableEq, Repr

/-- `residue = dataset.shape[1] % window_width;
zero_matrix = np.zeros((dataset.shape[0], window_width - residue));
np.concatenate([dataset, zero_matrix], axis=1)` — every row gets
`window_width - residue` zero columns appended. -/
def padMatrix (w : ℕ) (m : Mat) : Mat :=
  m.map (fun row => row ++ List.replicate (w - (shape m).2 % w) (0 : ℚ))

/-- The padded column count produced by `padMatrix` on a matrix of `T` columns. -/
def paddedLen (w T : ℕ) : ℕ := T + (w - T % w)

/-- `np.interp(x, xp, fp)` at the call site of the source, where
`xp = range(len(fp))`, i.e. the nodes are the integers `0, …, len(fp)-1`
(so each interval has width 1 and the divided difference needs no division).
Clamps outside the node range, linearly interpolates inside. -/
def npInterp (fp : List ℚ) (x : ℚ) : ℚ :=
  if fp.length = 0 then 0
  else if x ≤ 0 then fp.headI
  else if ((fp.length : ℚ) - 1) ≤ x then fp.getLastD 0
  else
    let j := (⌊x⌋).toNat
    fp.getD j 0 + (fp.getD (j + 1) 0 - fp.getD j 0) * (x - (j : ℚ))

/-- `self.x_range = np.interp(range(Tp), range(len(x_range)), x_range)`. -/
def interpCoords (Tp : ℕ) (fp : List ℚ) : List ℚ :=
  (List.range Tp).map (fun i : ℕ => npInterp fp (i : ℚ))

/-- The viewer's state after construction: the fields assigned on `self`
in `DifferencePlot.__init__` (the figure is carried separately, see `DPFull`). -/
structure DPState where
  window_width : ℕ
  window_height : ℕ
  ch_names : Option (List String)
  x : ℤ
  y : ℤ
  datasets : List Mat
  x_range : Option (List ℚ)
  deriving DecidableEq

deriving instance DecidableEq for Except

instance : Inhabited DPState :=
  ⟨{ window_width := 2500, window_height := 3, ch_names := none,
     x := 0, y := 0, datasets := [], x_range := none }⟩

/-- `DifferencePlot.__init__` up to (and excluding) the matplotlib calls:
the shape check, the field assignments, the zero padding and the
`x_range` interpolation.  Fails exactly when
`len(set(dataset.shape for dataset in datasets)) != 1`. -/
def init (datasets : List Mat) (ch_names : Option (List String)) (x y : ℤ)
    (x_range : Option (List ℚ)) (window_width window_height : ℕ) :
    Except DPError DPState :=
  if ((datasets.map shape).dedup.length ≠ 1) then
    .error .ShapeMismatch
  else
    let padded := datasets.map (padMatrix window_width)
    let Tp := (shape padded.headI).2
    let xr : Option (List ℚ) :=
      match x_range with
      | some fp => some (interpCoords Tp fp)
      | none => none
    .ok { window_width := window_width, window_height := window_height,
          ch_names := ch_names, x := x, y := y,
          datasets := padded, x_range := xr }

/-- `self.datasets[0].shape[1]`: the padded sample count the render step divides by. -/
def Tpadded (s : DPState) : ℕ := (shape s.datasets.headI).2

/-- `self.datasets[0].shape[0]`: the channel count the render step divides by. -/
def nChannels (s : DPState) : ℕ := (shape s.datasets.headI).1

/-- `real_channel = (self.y + channel) % self.datasets[0].shape[0]`. -/
def realChannel (s : DPState) (channel : ℕ) : ℤ :=
  (s.y + (channel : ℤ)) % (nChannels s : ℤ)

/-- `left = (self.x * width) % self.datasets[0].shape[1]`. -/
def windowLeft (s : DPState) : ℤ :=
  (s.x * (s.window_width : ℤ)) % (Tpadded s : ℤ)

/-- One subplot produced by one iteration of the loop in `plot_window`:
the optional title, the x-axis limits, and one (x-coords, y-slice) pair
per dataset. -/
structure Subplot where
  title : Option String
  xlim : ℚ × ℚ
  curves : List (List ℚ × List ℚ)
  deriving DecidableEq

/-- The body of the `for channel in range(self.window_height)` loop of
`plot_window`, for a given `channel`. -/
def plotSubplot (s : DPState) (channel : ℕ) : Subplot :=
  let realCh := (realChannel s channel).toNat
  let width := s.window_width
  let left := (windowLeft s).toNat
  let title : Option String :=
    match s.ch_names with
    | some names => if names = [] then none else some (names.getD realCh "")
    | none => none
  let xlim_coords : (ℚ × ℚ) × List ℚ :=
    match s.x_range with
    | some xr =>
        ((xr.getD left 0, xr.getD (left + width - 1) 0), (xr.drop left).take width)
    | none =>
        (((left : ℚ), ((left + width : ℕ) : ℚ)),
         (List.range' left width).map (fun i => (i : ℚ)))
  let curves := s.datasets.map (fun ds =>
    (xlim_coords.2, ((ds.getD realCh []).drop left).take width))
  { title := title, xlim := xlim_coords.1, curves := curves }

/-- `plot_window` as a pure rendering function: the subplots it draws. -/
def plot_window (s : DPState) : List Subplot :=
  (List.range s.window_height).map (plotSubplot s)

/-- The viewer state together with its matplotlib figure (the subplots
currently drawn on the canvas). -/
structure DPFull where
  core : DPState
  figure : List Subplot
  deriving DecidableEq

/-- `plot_window` as a state transformer: `self.figure.clear()` followed by
redrawing every subplot replaces the figure contents; no field of `self`
other than the figure is assigned anywhere in the method. -/
def plot_window_full (f : DPFull) : DPFull :=
  { core := f.core, figure := plot_window f.core }

/-- The offset update performed by `on_key_release` for a given key:
the four-way `if/elif` chain on `event.key`, with no `else` branch. -/
def applyKey (key : String) (s : DPState) : DPState :=
  if key = "left" then { s with x := s.x - 1 }
  else if key = "right" then { s with x := s.x + 1 }
  else if key = "up" then { s with y := s.y - 1 }
  else if key = "down" then { s with y := s.y + 1 }
  else s

/-- `on_key_release`: dispatch on the key, then unconditionally
`self.plot_window()`. -/
def on_key_release (key : String) (f : DPFull) : DPFull :=
  plot_window_full { core := applyKey key f.core, figure := f.figure }

/-! ### Helper lemmas -/

/-- A nonempty constant list deduplicates to a single element. -/
lemma dedup_length_eq_one_of_const {α : Type} [DecidableEq α] {l : List α} {a : α}
    (hne : l ≠ []) (hconst : ∀ x ∈ l, x = a) : l.dedup.length = 1 := by
  have ha : a ∈ l.dedup := by
    rw [List.mem_dedup]
    cases l with
    | nil => exact absurd rfl hne
    | cons b t => have := hconst b (by simp); subst this; simp
  have hsub : ∀ x ∈ l.dedup, x = a := fun x hx => hconst x (List.mem_dedup.1 hx)
  have hnd : l.dedup.Nodup := List.nodup_dedup l
  cases hd : l.dedup with
  | nil => rw [hd] at ha; exact absurd ha (by simp)
  | cons b t =>
      have hb : b = a := hsub b (by rw [hd]; simp)
      rw [hd] at hnd
      cases t with
      | nil => simp
      | cons c u =>
          have hc : c = a := hsub c (by rw [hd]; simp)
          rw [List.nodup_cons] at hnd
          exact absurd (by rw [hb, hc]; simp : b ∈ c :: u) hnd.1

/-- If deduplication leaves one element, all elements are equal. -/
lemma eq_of_dedup_length_eq_one {α : Type} [DecidableEq α] {l : List α}
    (h : l.dedup.length = 1) : ∀ x ∈ l, ∀ y ∈ l, x = y := by
  rw [List.length_eq_one] at h
  obtain ⟨a, ha⟩ := h
  intro x hx y hy
  have hx' : x ∈ l.dedup := List.mem_dedup.2 hx
  have hy' : y ∈ l.dedup := List.mem_dedup.2 hy
  rw [ha] at hx' hy'
  simp at hx' hy'
  rw [hx', hy']

lemma headI_map {α β : Type} [Inhabited α] [Inhabited β] (f : α → β) (l : List α)
    (h : l ≠ []) : (l.map f).headI = f l.headI := by
  cases l with
  | nil => exact absurd rfl h
  | cons a t => simp

/-- The shape of a padded matrix: same rows, `paddedLen` columns. -/
lemma shape_padMatrix (w : ℕ) (m : Mat) (hm : m ≠ []) :
    shape (padMatrix w m) = ((shape m).1, paddedLen w (shape m).2) := by
  cases m with
  | nil => exact absurd rfl hm
  | cons r t => simp [padMatrix, shape, paddedLen]

lemma paddedLen_eq (w T : ℕ) (hw : 0 < w) : paddedLen w T = w * (T / w + 1) := by
  have h1 := Nat.div_add_mod T w
  have h2 : T % w < w := Nat.mod_lt T hw
  unfold paddedLen
  rw [Nat.mul_add, Nat.mul_one]
  omega

lemma paddedLen_pos (w T : ℕ) (hw : 0 < w) : 0 < paddedLen w T := by
  have h2 : T % w < w := Nat.mod_lt T hw
  unfold paddedLen
  omega

lemma lt_paddedLen (w T : ℕ) (hw : 0 < w) : T < paddedLen w T := by
  have h2 : T % w < w := Nat.mod_lt T hw
  unfold paddedLen
  omega

lemma dvd_paddedLen (w T : ℕ) (hw : 0 < w) : w ∣ paddedLen w T := by
  rw [paddedLen_eq w T hw]
  exact ⟨T / w + 1, rfl⟩

lemma paddedLen_le_of_dvd (w T m : ℕ) (hw : 0 < w) (hdvd : w ∣ m) (hlt : T < m) :
    paddedLen w T ≤ m := by
  obtain ⟨k, hk⟩ := hdvd
  rw [paddedLen_eq w T hw, hk]
  have hdiv : T / w < k := by
    rw [Nat.div_lt_iff_lt_mul hw]
    calc T < w * k := hk ▸ hlt
    _ = k * w := Nat.mul_comm w k
  exact Nat.mul_le_mul_left w hdiv

/-- Inversion of a successful construction: the produced state's fields. -/
lemma init_ok_inv {ds : List Mat} {cn : Option (List String)} {x y : ℤ}
    {xr : Option (List ℚ)} {w wh : ℕ} {s : DPState}
    (h : init ds cn x y xr w wh = .ok s) :
    ds ≠ [] ∧ (∀ m1 ∈ ds, ∀ m2 ∈ ds, shape m1 = shape m2) ∧
      s = { window_width := w, window_height := wh, ch_names := cn, x := x, y := y,
            datasets := ds.map (padMatrix w),
            x_range := xr.map (fun fp =>
              interpCoords (shape ((ds.map (padMatrix w)).headI)).2 fp) } := by
  unfold init at h
  split at h
  · exact absurd h (by simp)
  · rename_i hcond
    rw [Ne, not_not] at hcond
    have hne : ds ≠ [] := by
      intro hnil
      rw [hnil] at hcond
      simp at hcond
    refine ⟨hne, ?_, ?_⟩
    · intro m1 h1 m2 h2
      exact eq_of_dedup_length_eq_one hcond (shape m1) (List.mem_map_of_mem shape h1)
        (shape m2) (List.mem_map_of_mem shape h2)
    · cases xr with
      | none => simpa using (Except.ok.injEq _ _ ▸ h).symm
      | some fp => simpa using (Except.ok.injEq _ _ ▸ h).symm

/-- A successful construction given nonempty, equal-shaped input. -/
lemma init_eq_ok (ds : List Mat) (cn : Option (List String)) (x y : ℤ)
    (xr : Option (List ℚ)) (w wh : ℕ) (hne : ds ≠ [])
    (hsh : ∀ m ∈ ds, shape m = shape ds.headI) :
    init ds cn x y xr w wh =
      .ok { window_width := w, window_height := wh, ch_names := cn, x := x, y := y,
            datasets := ds.map (padMatrix w),
            x_range := xr.map (fun fp =>
              interpCoords (shape ((ds.map (padMatrix w)).headI)).2 fp) } := by
  have hone : (ds.map shape).dedup.length = 1 := by
    refine dedup_length_eq_one_of_const (a := shape ds.headI) ?_ ?_
    · simpa using hne
    · intro sh hsh'
      obtain ⟨m, hm, rfl⟩ := List.mem_map.1 hsh'
      exact hsh m hm
  unfold init
  rw [if_neg (by rw [Ne, not_not]; exact hone)]
  cases xr with
  | none => rfl
  | some fp => rfl

/-- The padded sample count of a constructed state. -/
lemma Tpadded_of_init {ds : List Mat} {cn : Option (List String)} {x y : ℤ}
    {xr : Option (List ℚ)} {w wh : ℕ} {s : DPState}
    (h : init ds cn x y xr w wh = .ok s) (hC : ds.headI ≠ []) :
    Tpadded s = paddedLen w (shape ds.headI).2 := by
  obtain ⟨hne, _, rfl⟩ := init_ok_inv h
  show (shape ((ds.map (padMatrix w)).headI)).2 = _
  rw [headI_map _ _ hne, shape_padMatrix w _ hC]

/-- The channel count of a constructed state. -/
lemma nChannels_of_init {ds : List Mat} {cn : Option (List String)} {x y : ℤ}
    {xr : Option (List ℚ)} {w wh : ℕ} {s : DPState}
    (h : init ds cn x y xr w wh = .ok s) (hC : ds.headI ≠ []) :
    nChannels s = (shape ds.headI).1 := by
  obtain ⟨hne, _, rfl⟩ := init_ok_inv h
  show (shape ((ds.map (padMatrix w)).headI)).1 = _
  rw [headI_map _ _ hne, shape_padMatrix w _ hC]

/-! ### Claim theorems -/

/-- Claim C9: constructing the viewer with an empty dataset collection fails
with the same `ShapeMismatch` error as a genuine shape mismatch (the set of
shapes of an empty collection has size 0, not 1), for every choice of the
remaining parameters; construction never succeeds with zero datasets. -/
theorem init_empty_fails (cn : Option (List String)) (x y : ℤ)
    (xr : Option (List ℚ)) (w wh : ℕ) :
    init [] cn x y xr w wh = .error .ShapeMismatch := rfl

/-- Claim C3: whenever the input collection contains two matrices of differing
shapes, construction fails with the `ShapeMismatch` error: `init` returns
`.error`, so no viewer state is established and the render step (which takes a
constructed state) cannot be invoked on the failed attempt. -/
theorem init_shape_mismatch_fails (ds : List Mat) (cn : Option (List String))
    (x y : ℤ) (xr : Option (List ℚ)) (w wh : ℕ)
    (h : ∃ m1 ∈ ds, ∃ m2 ∈ ds, shape m1 ≠ shape m2) :
    init ds cn x y xr w wh = .error .ShapeMismatch := by
  obtain ⟨m1, h1, m2, h2, hne⟩ := h
  unfold init
  rw [if_pos]
  intro hone
  exact hne (eq_of_dedup_length_eq_one hone (shape m1) (List.mem_map_of_mem shape h1)
    (shape m2) (List.mem_map_of_mem shape h2))

/-- Witness for C3 at a concrete input: a (1, 1) and a (1, 2) matrix. -/
theorem init_shape_mismatch_fails_witness :
    init [[[(0 : ℚ)]], [[(0 : ℚ), 0]]] none 0 0 none 5 3 = .error .ShapeMismatch :=
  init_shape_mismatch_fails [[[(0 : ℚ)]], [[(0 : ℚ), 0]]] none 0 0 none 5 3
    (by decide)

/-- The smallest multiple of `w` that is greater than or equal to `T` — the
padded length as the spec describes it, for comparison with the code's
`paddedLen`. -/
def smallestMultipleGE (w T : ℕ) : ℕ := w * ((T + w - 1) / w)

/-- The state produced by constructing the viewer on the single 1×1 matrix
`[[0]]` with `window_width = 1`: the code pads a full window of zeros even
though 1 already divides the sample count. -/
def oneByOneState : DPState :=
  { window_width := 1, window_height := 3, ch_names := none, x := 0, y := 0,
    datasets := [[[0, 0]]], x_range := none }

/-- Counterexample to C1 as stated: on the 1×1 matrix `[[0]]` with
`window_width = 1` (valid input, positive width), construction succeeds but
the padded sample count is 2, not the smallest multiple of 1 that is ≥ 1,
which is 1 — the code always appends `window_width - T % window_width`
columns, a full extra window when the remainder is zero. -/
theorem padded_len_not_smallest_multiple :
    init [[[(0 : ℚ)]]] none 0 0 none 1 3 = .ok oneByOneState ∧
    (shape ([[[(0 : ℚ)]]] : List Mat).headI).2 = 1 ∧
    Tpadded oneByOneState = 2 ∧ smallestMultipleGE 1 1 = 1 ∧
    Tpadded oneByOneState ≠ smallestMultipleGE 1 1 := by decide

/-- Claim C1 (amended): for every collection of one or more equal-shaped
nonempty matrices and every positive `window_width`, construction succeeds
and the padded sample count equals `T + (window_width - T % window_width)` —
the smallest multiple of `window_width` STRICTLY greater than `T` (when
`window_width` divides `T` a full extra window is appended); in particular
`paddedLen 2500 12000 = 12500` as in the (5, 12000) scenario. -/
theorem init_padded_len (ds : List Mat) (cn : Option (List String)) (x y : ℤ)
    (xr : Option (List ℚ)) (w wh : ℕ) (hw : 0 < w) (hne : ds ≠ [])
    (hsh : ∀ m ∈ ds, shape m = shape ds.headI) (hC : ds.headI ≠ []) :
    ∃ s, init ds cn x y xr w wh = .ok s ∧
      Tpadded s = (shape ds.headI).2 + (w - (shape ds.headI).2 % w) ∧
      w ∣ Tpadded s ∧
      (shape ds.headI).2 < Tpadded s ∧
      (∀ m : ℕ, w ∣ m → (shape ds.headI).2 < m → Tpadded s ≤ m) ∧
      paddedLen 2500 12000 = 12500 := by
  have hok := init_eq_ok ds cn x y xr w wh hne hsh
  refine ⟨_, hok, ?_⟩
  have hTp := Tpadded_of_init hok hC
  refine ⟨hTp, ?_, ?_, ?_, by decide⟩
  · rw [hTp]; exact dvd_paddedLen _ _ hw
  · rw [hTp]; exact lt_paddedLen _ _ hw
  · intro m hdvd hlt
    rw [hTp]
    exact paddedLen_le_of_dvd _ _ _ hw hdvd hlt

/-- Witness for C1 (amended) at a concrete input: one 1×1 matrix,
`window_width = 2`. -/
theorem init_padded_len_witness :
    ∃ s, init [[[(0 : ℚ)]]] none 0 0 none 2 3 = .ok s ∧
      Tpadded s = (shape ([[[(0 : ℚ)]]] : List Mat).headI).2 +
        (2 - (shape ([[[(0 : ℚ)]]] : List Mat).headI).2 % 2) ∧
      2 ∣ Tpadded s ∧
      (shape ([[[(0 : ℚ)]]] : List Mat).headI).2 < Tpadded s ∧
      (∀ m : ℕ, 2 ∣ m → (shape ([[[(0 : ℚ)]]] : List Mat).headI).2 < m →
        Tpadded s ≤ m) ∧
      paddedLen 2500 12000 = 12500 :=
  init_padded_len [[[(0 : ℚ)]]] none 0 0 none 2 3 (by decide) (by decide)
    (by decide) (by decide)

/-- Counterexample to C2 as stated: for the 1×1 matrix `[[0]]` with
`window_width = 1` the sample count is divisible by the width, yet the stored
padded matrix is `[[0, 0]]`, not the original `[[0]]`: a full window of zero
columns is appended. -/
theorem padding_added_when_divisible :
    (shape ([[[(0 : ℚ)]]] : List Mat).headI).2 % 1 = 0 ∧
    init [[[(0 : ℚ)]]] none 0 0 none 1 3 = .ok oneByOneState ∧
    oneByOneState.datasets ≠ [[[(0 : ℚ)]]] ∧
    oneByOneState.datasets = [[[(0 : ℚ), 0]]] := by decide

/-- Claim C2 (amended): when `T % window_width == 0`, construction appends a
FULL window of `window_width` zero columns to every row of every dataset
(rather than no padding): the stored matrices are the originals with
`window_width` zeros appended to each row. -/
theorem init_pads_full_window_when_divisible (ds : List Mat)
    (cn : Option (List String)) (x y : ℤ) (xr : Option (List ℚ)) (w wh : ℕ)
    (hw : 0 < w) (hne : ds ≠ []) (hsh : ∀ m ∈ ds, shape m = shape ds.headI)
    (hdvd : (shape ds.headI).2 % w = 0) :
    ∃ s, init ds cn x y xr w wh = .ok s ∧
      s.datasets = ds.map (fun m =>
        m.map (fun row => row ++ List.replicate w (0 : ℚ))) := by
  have hok := init_eq_ok ds cn x y xr w wh hne hsh
  refine ⟨_, hok, ?_⟩
  show ds.map (padMatrix w) = _
  refine List.map_congr_left ?_
  intro m hm
  unfold padMatrix
  rw [hsh m hm, hdvd, Nat.sub_zero]

/-- Witness for C2 (amended) at a concrete input: one 1×2 matrix,
`window_width = 2` (2 divides 2). -/
theorem init_pads_full_window_when_divisible_witness :
    ∃ s, init [[[(0 : ℚ), 1]]] none 0 0 none 2 3 = .ok s ∧
      s.datasets = ([[[(0 : ℚ), 1]]] : List Mat).map (fun m =>
        m.map (fun row => row ++ List.replicate 2 (0 : ℚ))) :=
  init_pads_full_window_when_divisible [[[(0 : ℚ), 1]]] none 0 0 none 2 3
    (by decide) (by decide) (by decide) (by decide)

/-- The wrapped window start is nonnegative and at least one window short of
the end whenever the divisor is a positive multiple of the window width. -/
lemma mul_emod_bound (x : ℤ) (w Tp : ℕ) (hw : 0 < w) (hTp : 0 < Tp)
    (hdvd : w ∣ Tp) :
    0 ≤ (x * (w : ℤ)) % (Tp : ℤ) ∧
    (x * (w : ℤ)) % (Tp : ℤ) + (w : ℤ) ≤ (Tp : ℤ) := by
  obtain ⟨k, hk⟩ := hdvd
  have hk0 : 0 < k := by
    cases Nat.eq_zero_or_pos k with
    | inl h => rw [h, Nat.mul_zero] at hk; omega
    | inr h => exact h
  have hcast : (Tp : ℤ) = (w : ℤ) * (k : ℤ) := by rw [hk]; push_cast; ring
  have hmod : x * (w : ℤ) % ((w : ℤ) * (k : ℤ)) = (w : ℤ) * (x % (k : ℤ)) := by
    rw [mul_comm x (w : ℤ)]
    exact Int.mul_emod_mul_of_pos x (k : ℤ) (by exact_mod_cast hw)
  have hk0' : (0 : ℤ) < (k : ℤ) := by exact_mod_cast hk0
  have hnn : 0 ≤ x % (k : ℤ) := Int.emod_nonneg x (by omega)
  have hlt : x % (k : ℤ) < (k : ℤ) := Int.emod_lt_of_pos x hk0'
  rw [hcast, hmod]
  constructor
  · exact mul_nonneg (by positivity) hnn
  · calc (w : ℤ) * (x % (k : ℤ)) + (w : ℤ) = (w : ℤ) * (x % (k : ℤ) + 1) := by ring
    _ ≤ (w : ℤ) * (k : ℤ) := mul_le_mul_of_nonneg_left (by omega) (by positivity)

/-- Claim C4: for every integer `x` (any sequence of left/right key events),
the window start `(x * window_width) mod T_padded` computed by the render
step on a constructed state lies in `[0, T_padded - window_width]`, so the
slice from start to start + window_width stays inside the padded data. -/
theorem window_start_in_bounds (ds : List Mat) (cn : Option (List String))
    (x0 y0 : ℤ) (xr : Option (List ℚ)) (w wh : ℕ) (s : DPState) (hw : 0 < w)
    (hinit : init ds cn x0 y0 xr w wh = .ok s) (hC : ds.headI ≠ []) (x : ℤ) :
    0 ≤ windowLeft { s with x := x } ∧
    windowLeft { s with x := x } + (w : ℤ) ≤ (Tpadded s : ℤ) ∧
    (windowLeft { s with x := x }).toNat + w ≤ Tpadded s := by
  have hTp : Tpadded s = paddedLen w (shape ds.headI).2 := Tpadded_of_init hinit hC
  have hww : s.window_width = w := by
    obtain ⟨-, -, rfl⟩ := init_ok_inv hinit; rfl
  have hleft : windowLeft { s with x := x } =
      (x * (w : ℤ)) % ((Tpadded s : ℕ) : ℤ) := by
    unfold windowLeft
    show (x * (s.window_width : ℤ)) % ((Tpadded s : ℕ) : ℤ) = _
    rw [hww]
  have hb := mul_emod_bound x w (Tpadded s)
    hw (hTp ▸ paddedLen_pos w _ hw) (hTp ▸ dvd_paddedLen w _ hw)
  rw [hleft]
  refine ⟨hb.1, hb.2, ?_⟩
  have h1 := hb.1
  have h2 := hb.2
  omega

/-- Witness for C4 at a concrete input: one 1×1 matrix, `window_width = 2`,
offset `x = -5`. -/
theorem window_start_in_bounds_witness :
    0 ≤ windowLeft { (⟨2, 3, none, 0, 0, [[[0, 0]]], none⟩ : DPState) with x := -5 } ∧
    windowLeft { (⟨2, 3, none, 0, 0, [[[0, 0]]], none⟩ : DPState) with x := -5 } + (2 : ℤ) ≤
      (Tpadded (⟨2, 3, none, 0, 0, [[[0, 0]]], none⟩ : DPState) : ℤ) ∧
    (windowLeft { (⟨2, 3, none, 0, 0, [[[0, 0]]], none⟩ : DPState) with x := -5 }).toNat + 2 ≤
      Tpadded (⟨2, 3, none, 0, 0, [[[0, 0]]], none⟩ : DPState) :=
  window_start_in_bounds [[[(0 : ℚ)]]] none 0 0 none 2 3
    (⟨2, 3, none, 0, 0, [[[0, 0]]], none⟩ : DPState) (by decide) (by decide)
    (by decide) (-5)

/-- The C5 scenario state: `y = 7` (seven `down` events from 0),
`window_height = 3`, a dataset with `C = 5` channels. -/
def chanScenario : DPState :=
  { window_width := 2500, window_height := 3, ch_names := none, x := 0, y := 7,
    datasets := [List.replicate 5 [0]], x_range := none }

/-- Claim C5: for every integer `y` (any sequence of up/down key events) and
every row index `r` below `window_height`, the resolved channel index
`(y + r) mod C` computed by the render step on a constructed state lies in
`[0, C - 1]`; and in the scenario `y = 7`, `window_height = 3`, `C = 5` the
visible channels are `[2, 3, 4]`. -/
theorem visible_channel_in_bounds (ds : List Mat) (cn : Option (List String))
    (x0 y0 : ℤ) (xr : Option (List ℚ)) (w wh : ℕ) (s : DPState)
    (hinit : init ds cn x0 y0 xr w wh = .ok s) (hC : ds.headI ≠ []) :
    ((∀ y : ℤ, ∀ r : ℕ, r < wh →
      0 ≤ realChannel { s with y := y } r ∧
      realChannel { s with y := y } r < ((shape ds.headI).1 : ℤ)) ∧
    (List.range 3).map (fun r => realChannel chanScenario r) = [2, 3, 4]) := by
  constructor
  · intro y r _
    have hch : nChannels s = (shape ds.headI).1 := nChannels_of_init hinit hC
    have hCpos : 0 < (shape ds.headI).1 := by
      cases hd : ds.headI with
      | nil => exact absurd hd hC
      | cons a t => simp [shape, hd]
    have hreal : realChannel { s with y := y } r =
        (y + (r : ℤ)) % ((shape ds.headI).1 : ℤ) := by
      unfold realChannel
      show (y + (r : ℤ)) % ((nChannels s : ℕ) : ℤ) = _
      rw [hch]
    rw [hreal]
    have hCpos' : (0 : ℤ) < ((shape ds.headI).1 : ℤ) := by exact_mod_cast hCpos
    exact ⟨Int.emod_nonneg _ (by omega), Int.emod_lt_of_pos _ hCpos'⟩
  · decide

/-- Witness for C5 at a concrete input: one 1×1 matrix, `y = -9`, `r = 0`. -/
theorem visible_channel_in_bounds_witness :
    ((0 : ℤ) ≤ realChannel { (⟨2, 3, none, 0, 0, [[[0, 0]]], none⟩ : DPState) with y := -9 } 0 ∧
      realChannel { (⟨2, 3, none, 0, 0, [[[0, 0]]], none⟩ : DPState) with y := -9 } 0 <
        ((shape ([[[(0 : ℚ)]]] : List Mat).headI).1 : ℤ)) ∧
    (List.range 3).map (fun r => realChannel chanScenario r) = [2, 3, 4] := by
  have h := visible_channel_in_bounds [[[(0 : ℚ)]]] none 0 0 none 2 3
    (⟨2, 3, none, 0, 0, [[[0, 0]]], none⟩ : DPState) (by decide) (by decide)
  exact ⟨h.1 (-9) 0 (by decide), h.2⟩

/-- The C6 scenario start state: `x = 0`, `window_width = 100`, one dataset
whose (already padded) sample count is 1000. -/
def panScenario : DPState :=
  { window_width := 100, window_height := 3, ch_names := none, x := 0, y := 0,
    datasets := [[List.replicate 1000 0]], x_range := none }

/-- Every key outside the four directional keys leaves the state unchanged:
the `if/elif` chain of `on_key_release` has no other branch. -/
lemma applyKey_of_not_mem (k : String) (s : DPState)
    (h : k ∉ (["left", "right", "up", "down"] : List String)) :
    applyKey k s = s := by
  simp only [List.mem_cons, List.mem_singleton, not_or] at h
  obtain ⟨h1, h2, h3, h4⟩ := h
  unfold applyKey
  rw [if_neg h1, if_neg h2, if_neg h3, if_neg (by simpa using h4)]

set_option maxRecDepth 10000 in
/-- Claim C6: the key handler maps exactly the four directional keys to unit
offset deltas (left/right on `x`, up/down on `y`), every other key is a
no-op on the offsets, and from `x = 0` eleven `right` events give `x = 11`
with window start `(11 * 100) mod 1000 = 100` for `window_width = 100` and
`T_padded = 1000`. -/
theorem key_mapping :
    (∀ s : DPState, applyKey "left" s = { s with x := s.x - 1 }) ∧
    (∀ s : DPState, applyKey "right" s = { s with x := s.x + 1 }) ∧
    (∀ s : DPState, applyKey "up" s = { s with y := s.y - 1 }) ∧
    (∀ s : DPState, applyKey "down" s = { s with y := s.y + 1 }) ∧
    (∀ k : String, ∀ s : DPState,
      k ∉ (["left", "right", "up", "down"] : List String) → applyKey k s = s) ∧
    ((applyKey "right")^[11] panScenario).x = 11 ∧
    windowLeft ((applyKey "right")^[11] panScenario) = 100 := by
  refine ⟨fun s => rfl, fun s => by simp [applyKey], fun s => by simp [applyKey],
    fun s => by simp [applyKey], fun k s h => applyKey_of_not_mem k s h, ?_, ?_⟩
  · decide
  · decide

/-- Witness for C6 at a concrete input: the key `"a"` is a no-op. -/
theorem key_mapping_witness :
    applyKey "a" chanScenario = chanScenario :=
  key_mapping.2.2.2.2.1 "a" chanScenario (by decide)

/-- Claim C8: the render step never mutates the viewer's state: it only
replaces the figure contents (clear-then-redraw), and the offsets `x` and
`y`, the padded datasets, the interpolated coordinate sequence and the
channel names are all unchanged by `plot_window`. -/
theorem plot_window_preserves_state (f : DPFull) :
    (plot_window_full f).core = f.core ∧
    (plot_window_full f).core.x = f.core.x ∧
    (plot_window_full f).core.y = f.core.y ∧
    (plot_window_full f).core.datasets = f.core.datasets ∧
    (plot_window_full f).core.x_range = f.core.x_range ∧
    (plot_window_full f).core.ch_names = f.core.ch_names ∧
    plot_window_full f = { core := f.core, figure := plot_window f.core } :=
  ⟨rfl, rfl, rfl, rfl, rfl, rfl, rfl⟩

/-- Claim C10: every key release triggers a full render: after
`on_key_release`, the figure holds exactly the subplots of `plot_window` on
the updated state, for every key; for a key outside the four directional
keys the offsets are unchanged, yet the figure is still redrawn from the
(unchanged) state. -/
theorem every_key_release_renders (k : String) (f : DPFull) :
    (on_key_release k f).figure = plot_window (applyKey k f.core) ∧
    (on_key_release k f).core = applyKey k f.core ∧
    (k ∉ (["left", "right", "up", "down"] : List String) →
      (on_key_release k f).core = f.core ∧
      (on_key_release k f).figure = plot_window f.core) := by
  refine ⟨rfl, rfl, fun h => ?_⟩
  have hk := applyKey_of_not_mem k f.core h
  constructor
  · show applyKey k f.core = f.core
    exact hk
  · show plot_window (applyKey k f.core) = plot_window f.core
    rw [hk]

/-- Witness for C10 at a concrete input: the key `"q"` on a concrete viewer
still triggers a redraw while leaving the offsets unchanged. -/
theorem every_key_release_renders_witness :
    (on_key_release "q" ⟨chanScenario, []⟩).figure =
      plot_window (applyKey "q" chanScenario) ∧
    (on_key_release "q" ⟨chanScenario, []⟩).core = applyKey "q" chanScenario ∧
    ((on_key_release "q" ⟨chanScenario, []⟩).core = chanScenario ∧
      (on_key_release "q" ⟨chanScenario, []⟩).figure = plot_window chanScenario) := by
  have h := every_key_release_renders "q" ⟨chanScenario, []⟩
  exact ⟨h.1, h.2.1, h.2.2 (by decide)⟩

lemma getD_map_range (g : ℕ → ℚ) (n i : ℕ) (h : i < n) :
    ((List.range n).map g).getD i 0 = g i := by
  rw [List.getD_eq_getElem?_getD, List.getElem?_map, List.getElem?_range h]
  rfl

lemma getLastD_eq_getD (l : List ℚ) :
    l.getLastD 0 = l.getD (l.length - 1) 0 := by
  rw [List.getLastD_eq_getLast?, List.getLast?_eq_getElem?, List.getD_eq_getElem?_getD]

lemma headI_eq_getD (l : List ℚ) (h : l ≠ []) : l.headI = l.getD 0 0 := by
  cases l with
  | nil => exact absurd rfl h
  | cons a t => rfl

/-- `np.interp` evaluated at an integer query point over the integer nodes
`0, …, len - 1` returns the node value, clamped at the right boundary. -/
lemma npInterp_nat (fp : List ℚ) (h : fp ≠ []) (i : ℕ) :
    npInterp fp (i : ℚ) = fp.getD (min i (fp.length - 1)) 0 := by
  have hlen : 0 < fp.length := List.length_pos.2 h
  unfold npInterp
  rw [if_neg (by omega)]
  by_cases h0 : i = 0
  · subst h0
    rw [if_pos (by norm_num)]
    rw [headI_eq_getD fp h]
    congr 1
    omega
  · have hi : 0 < i := Nat.pos_of_ne_zero h0
    have hi1 : (1 : ℚ) ≤ (i : ℚ) := by exact_mod_cast hi
    rw [if_neg (by linarith)]
    by_cases hbig : fp.length - 1 ≤ i
    · rw [if_pos ?hc]
      case hc =>
        have hle : fp.length ≤ i + 1 := by omega
        have : (fp.length : ℚ) ≤ (i : ℚ) + 1 := by exact_mod_cast hle
        linarith
      rw [getLastD_eq_getD]
      congr 1
      omega
    · rw [if_neg ?hc]
      case hc =>
        have hlt : i + 1 < fp.length := by omega
        have : (i : ℚ) + 1 < (fp.length : ℚ) := by exact_mod_cast hlt
        linarith
      have hmin : min i (fp.length - 1) = i := by omega
      simp only [Int.floor_natCast, Int.toNat_natCast, hmin]
      ring

/-- Node values of a strictly increasing list are monotone in the index. -/
lemma getD_mono_of_pairwise_lt (fp : List ℚ) (hmono : List.Pairwise (· < ·) fp) :
    ∀ i j : ℕ, i ≤ j → j < fp.length → fp.getD i 0 ≤ fp.getD j 0 := by
  intro i j hij hj
  rcases Nat.eq_or_lt_of_le hij with rfl | hlt
  · exact le_refl _
  · have hi : i < fp.length := by omega
    have hget := List.pairwise_iff_get.1 hmono ⟨i, hi⟩ ⟨j, hj⟩ hlt
    rw [List.getD_eq_getElem fp 0 hi, List.getD_eq_getElem fp 0 hj]
    exact le_of_lt (by simpa [List.get_eq_getElem] using hget)

/-- Claim C7: for a constructed viewer given an `x_range` whose length equals
the pre-padding sample count and which is strictly increasing, the stored
interpolated coordinate sequence has length `T_padded`, is non-decreasing,
starts at the first value of `x_range` and ends at its last value (held
constant over the padding indices). -/
theorem interp_coords_boundary (ds : List Mat) (cn : Option (List String))
    (x y : ℤ) (fp : List ℚ) (w wh : ℕ) (s : DPState) (hw : 0 < w)
    (hinit : init ds cn x y (some fp) w wh = .ok s) (hC : ds.headI ≠ [])
    (hlen : fp.length = (shape ds.headI).2) (hfp : fp ≠ [])
    (hmono : List.Pairwise (· < ·) fp) :
    ∃ ixr, s.x_range = some ixr ∧
      ixr.length = Tpadded s ∧
      List.Sorted (· ≤ ·) ixr ∧
      ixr.headI = fp.headI ∧
      ixr.getLastD 0 = fp.getLastD 0 := by
  have hL : 0 < fp.length := List.length_pos.2 hfp
  have hTp : Tpadded s = paddedLen w fp.length := by
    rw [Tpadded_of_init hinit hC, hlen]
  obtain ⟨hne, -, hs⟩ := init_ok_inv hinit
  have hxr : s.x_range =
      some (interpCoords (shape ((ds.map (padMatrix w)).headI)).2 fp) := by
    rw [hs]; rfl
  have hTpEq : (shape ((ds.map (padMatrix w)).headI)).2 = Tpadded s := by
    rw [hs]; rfl
  set Tp := (shape ((ds.map (padMatrix w)).headI)).2 with hTpDef
  have hTpos : 0 < Tp := by rw [hTpEq, hTp]; exact paddedLen_pos _ _ hw
  have hTgt : fp.length < Tp := by rw [hTpEq, hTp]; exact lt_paddedLen _ _ hw
  refine ⟨interpCoords Tp fp, hxr, ?_, ?_, ?_, ?_⟩
  · rw [← hTpEq]
    unfold interpCoords
    rw [List.length_map, List.length_range]
  · show List.Pairwise _ _
    have key : ∀ a b : ℕ, a < b → npInterp fp (a : ℚ) ≤ npInterp fp (b : ℚ) := by
      intro a b hab
      rw [npInterp_nat fp hfp a, npInterp_nat fp hfp b]
      exact getD_mono_of_pairwise_lt fp hmono _ _ (by omega) (by omega)
    unfold interpCoords
    rw [List.pairwise_map]
    exact List.Pairwise.imp (fun hab => key _ _ hab) (List.pairwise_lt_range Tp)
  · rw [headI_eq_getD _ (by
        unfold interpCoords
        intro hnil
        have := congrArg List.length hnil
        simp at this
        omega)]
    unfold interpCoords
    rw [getD_map_range _ _ _ hTpos, npInterp_nat fp hfp 0,
      headI_eq_getD fp hfp]
    congr 1
    omega
  · rw [getLastD_eq_getD, getLastD_eq_getD]
    unfold interpCoords
    rw [List.length_map, List.length_range]
    rw [getD_map_range _ _ _ (by omega), npInterp_nat fp hfp (Tp - 1)]
    congr 1
    omega

/-- Witness for C7 at a concrete input: one 1×3 matrix, `x_range = [10, 20, 30]`,
`window_width = 2`; the padded count is 4. -/
theorem interp_coords_boundary_witness :
    ∃ ixr, (⟨2, 3, none, 0, 0, [[[0, 0, 0, 0]]],
        some (interpCoords 4 [10, 20, 30])⟩ : DPState).x_range = some ixr ∧
      ixr.length = Tpadded (⟨2, 3, none, 0, 0, [[[0, 0, 0, 0]]],
        some (interpCoords 4 [10, 20, 30])⟩ : DPState) ∧
      List.Sorted (· ≤ ·) ixr ∧
      ixr.headI = ([10, 20, 30] : List ℚ).headI ∧
      ixr.getLastD 0 = ([10, 20, 30] : List ℚ).getLastD 0 :=
  interp_coords_boundary [[[(0 : ℚ), 0, 0]]] none 0 0 [10, 20, 30] 2 3
    (⟨2, 3, none, 0, 0, [[[0, 0, 0, 0]]], some (interpCoords 4 [10, 20, 30])⟩ : DPState)
    (by decide)
    (by rw [init_eq_ok [[[(0 : ℚ), 0, 0]]] none 0 0 (some [10, 20, 30]) 2 3
          (by decide) (by decide)]
        exact rfl)
    (by decide) (by decide) (by decide) (by decide)

end DifferencePlot
